import Mathlib

/-!
Shallow embedding of the RVJIT compiler interface of RVVM
(src/src/rvjit/rvjit.h) and proofs about it.

Conventions of the embedding:
* C size_t values are modelled as Nat; masks live below 2 to the 64.
* Pointers into the working code buffer are byte offsets; the buffer
  itself is a total function from offsets to byte values, so that
  safe_realloc (which preserves the prefix of the old allocation and
  never shrinks here) is content-preserving and memcpy is a pointwise
  overwrite.  The space field tracks the allocated capacity exactly as
  in the C struct.
* hashmap_t is modelled as a function map from keys to Option values,
  NULL results as Option.none.
* Functions whose definitions are not part of the given sources (only
  their declarations in rvjit.h are) carry a doc comment starting with
  Modelled from the spec, and are written from the words of spec.md and
  of the declaration comments in rvjit.h.
-/

/-- REG_ILL, 0xFF: register is not allocated. -/
def REG_ILL : Nat := 0xFF

/-- Number of guest registers tracked by the allocator. -/
def RVJIT_REGISTERS : Nat := 32

def RVJIT_REGISTER_ZERO : Nat := 0

def LINKAGE_NONE : Nat := 0
def LINKAGE_TAIL : Nat := 1
def LINKAGE_JMP : Nat := 2

/-- Per guest register allocation record (rvjit_reginfo_t). -/
structure rvjit_reginfo_t where
  last_used : Nat
  auipc_off : Int
  hreg : Nat
  flags : Nat

/-- JIT heap state (rvjit_heap_t).  The data and code base pointers are
not modelled; code addresses are byte offsets into the arena.  blocks is
the size-64 hashmap from block phys_pc to code, block_links the pending
link multimap keyed by target PC. -/
structure rvjit_heap_t where
  curr : Nat
  size : Nat
  blocks : Nat → Option Nat
  block_links : Nat → List Nat
  dirty_pages : Nat → Bool
  dirty_mask : Nat

/-- Block in progress (rvjit_block_t). -/
structure rvjit_block_t where
  heap : rvjit_heap_t
  links : List (Nat × Nat)
  code : Nat → Nat
  size : Nat
  space : Nat
  hreg_mask : Nat
  abireclaim_mask : Nat
  regs : Fin RVJIT_REGISTERS → rvjit_reginfo_t
  virt_pc : Nat
  phys_pc : Nat
  pc_off : Int
  rv64 : Bool
  linkage : Nat

/-- rvjit_hreg_mask: (1ULL << hreg), a 64-bit size_t value. -/
def rvjit_hreg_mask (hreg : Nat) : Nat := (1 <<< hreg) % 2 ^ 64

/-- rvjit_set_rv64.  The C function is compiled under RVJIT_NATIVE_64BIT
on 64-bit hosts and sets the flag from the argument; on 32-bit hosts the
argument is discarded and the flag is forced to false.  The host
configuration is passed as the native64 parameter. -/
def rvjit_set_rv64 (native64 : Bool) (block : rvjit_block_t) (rv64 : Bool) :
    rvjit_block_t :=
  if native64 then { block with rv64 := rv64 }
  else { block with rv64 := false }

/-- rvjit_block_nonempty: true if the block has instructions emitted. -/
def rvjit_block_nonempty (block : rvjit_block_t) : Bool :=
  block.size != 0

/-- safe_realloc on the working buffer.  Reallocation to a larger
capacity preserves the bytes of the old allocation, so on the
offset-to-byte view of the buffer it is the identity; the new capacity
is tracked separately in the space field by the caller. -/
def safe_realloc (buf : Nat → Nat) (_newSpace : Nat) : Nat → Nat :=
  fun a => buf a

/-- memcpy of a byte list src to offset off of the buffer. -/
def memcpy_bytes (buf : Nat → Nat) (off : Nat) (src : List Nat) : Nat → Nat :=
  fun a => if off ≤ a ∧ a - off < src.length then src.getD (a - off) 0 else buf a

/-- rvjit_put_code: grow the buffer by 1024 when the chunk does not fit,
then append the chunk at offset size. -/
def rvjit_put_code (block : rvjit_block_t) (inst : List Nat) : rvjit_block_t :=
  let block :=
    if block.space < block.size + inst.length then
      { block with
        space := block.space + 1024,
        code := safe_realloc block.code (block.space + 1024) }
    else block
  { block with
    code := memcpy_bytes block.code block.size inst,
    size := block.size + inst.length }

/-- rvjit_free_hreg: put the bit of hreg back into the free mask. -/
def rvjit_free_hreg (block : rvjit_block_t) (hreg : Nat) : rvjit_block_t :=
  { block with hreg_mask := block.hreg_mask ||| rvjit_hreg_mask hreg }

/-- Loop body of rvjit_try_claim_hreg: scan bits i, i+1, ... of
hreg_mask while fuel lasts; the C loop runs i from 0 below
RVJIT_REGISTERS, i.e. fuel RVJIT_REGISTERS from i = 0.  The C complement
of the 64-bit mask is 2 to the 64 minus 1 xor the mask. -/
def tryClaimAux (block : rvjit_block_t) (i fuel : Nat) : Nat × rvjit_block_t :=
  match fuel with
  | 0 => (REG_ILL, block)
  | fuel + 1 =>
    if block.hreg_mask &&& rvjit_hreg_mask i ≠ 0 then
      (i, { block with
            hreg_mask := block.hreg_mask &&& ((2 ^ 64 - 1) ^^^ rvjit_hreg_mask i) })
    else tryClaimAux block (i + 1) fuel

/-- rvjit_try_claim_hreg: take the lowest set bit of hreg_mask among
positions 0..31 and clear it, or return REG_ILL. -/
def rvjit_try_claim_hreg (block : rvjit_block_t) : Nat × rvjit_block_t :=
  tryClaimAux block 0 RVJIT_REGISTERS

/-- Modelled from the spec: rvjit_reclaim_hreg is only declared in
rvjit.h; per section 4.4 of the spec, reclaim selects the mapped guest
register with the smallest last-use timestamp, frees its host register
and unmaps it (spills of dirty values into emitted code are not modelled
as no claim depends on them).  This helper picks the victim. -/
def reclaimCandidate (block : rvjit_block_t) : Option (Fin RVJIT_REGISTERS) :=
  (List.finRange RVJIT_REGISTERS).foldl
    (fun best g =>
      if (block.regs g).hreg ≠ REG_ILL then
        match best with
        | none => some g
        | some b =>
          if (block.regs g).last_used < (block.regs b).last_used then some g
          else some b
      else best) none

/-- Modelled from the spec: body of rvjit_reclaim_hreg (declaration only
in rvjit.h), per section 4.4: select the mapped guest register with the
smallest last-use timestamp, mark it unmapped and hand out its host
register; with nothing mapped there is nothing to reclaim. -/
def rvjit_reclaim_hreg (block : rvjit_block_t) : Nat × rvjit_block_t :=
  match reclaimCandidate block with
  | none => (REG_ILL, block)
  | some g =>
    ((block.regs g).hreg,
     { block with
       regs := fun j =>
         if j = g then
           { last_used := (block.regs g).last_used,
             auipc_off := (block.regs g).auipc_off,
             hreg := REG_ILL,
             flags := (block.regs g).flags }
         else block.regs j })

/-- rvjit_claim_hreg: claim a free host register, falling back to
rvjit_reclaim_hreg when the free mask has no claimable bit. -/
def rvjit_claim_hreg (block : rvjit_block_t) : Nat × rvjit_block_t :=
  let p := rvjit_try_claim_hreg block
  if p.1 = REG_ILL then rvjit_reclaim_hreg p.2 else p

/-- Page-align an offset upward, pages being 4096 bytes. -/
def alignPage (x : Nat) : Nat := (x + 4095) / 4096 * 4096

/-- Modelled from the spec: rvjit_block_finalize (declaration only in
rvjit.h).  Per the declaration comments and sections 4.6 and 4.7 of the
spec: the block is copied into the code heap at a page-aligned entry
address; when the heap lacks remaining capacity for it, NULL is returned
and nothing is registered; otherwise the entry is registered in the
block cache under the phys_pc key and returned. -/
def rvjit_block_finalize (block : rvjit_block_t) : Option Nat × rvjit_block_t :=
  let entry := alignPage block.heap.curr
  if block.heap.size < entry + block.size then
    (none, block)
  else
    (some entry,
     { block with
       heap := { block.heap with
                 curr := entry + block.size,
                 blocks := fun p =>
                   if p = block.phys_pc then some entry
                   else block.heap.blocks p } })

/-- Modelled from the spec: rvjit_block_lookup (declaration only in
rvjit.h): look up a compiled block by phys_pc, NULL when none found. -/
def rvjit_block_lookup (block : rvjit_block_t) (phys_pc : Nat) : Option Nat :=
  block.heap.blocks phys_pc

/-- Modelled from the spec: rvjit_flush_cache (declaration only in
rvjit.h).  Per section 4.7: current offset reset to zero, block cache
cleared, pending-link map cleared; per section 4.8 the dirty bits are
cleared by the flush.  The machine epoch lives outside the heap and is
not modelled. -/
def rvjit_flush_cache (block : rvjit_block_t) : rvjit_block_t :=
  { block with
    heap := { block.heap with
              curr := 0,
              blocks := fun _ => none,
              block_links := fun _ => [],
              dirty_pages := fun _ => false } }

/-- A 4096-byte page p overlaps the byte range from addr of length sz:
the intersection of the intervals from p * 4096 of length 4096 and from
addr of length sz is nonempty. -/
def pageOverlaps (p addr sz : Nat) : Prop :=
  addr < (p + 1) * 4096 ∧ p * 4096 < addr + sz ∧ 0 < sz

instance (p addr sz : Nat) : Decidable (pageOverlaps p addr sz) :=
  inferInstanceAs (Decidable (And _ _))

/-- Modelled from the spec: rvjit_mark_dirty_mem (declaration only in
rvjit.h).  Per section 4.8: the dirty bit array is indexed by physaddr
shifted right by 12, and a write sets the bits covering the written
range; bits of other pages keep their value. -/
def rvjit_mark_dirty_mem (block : rvjit_block_t) (addr sz : Nat) : rvjit_block_t :=
  { block with
    heap := { block.heap with
              dirty_pages := fun p =>
                block.heap.dirty_pages p || decide (pageOverlaps p addr sz) } }

/-- Register record of an unmapped guest register. -/
def defaultReginfo : rvjit_reginfo_t :=
  { last_used := 0, auipc_off := 0, hreg := REG_ILL, flags := 0 }

/-- A block about to be finalized, carrying heap h, its guest physical
PC and its emitted size; the remaining fields do not influence
finalization. -/
def mkFinalizeBlock (h : rvjit_heap_t) (pc bsize : Nat) : rvjit_block_t :=
  { heap := h, links := [], code := fun _ => 0, size := bsize, space := bsize,
    hreg_mask := 0, abireclaim_mask := 0, regs := fun _ => defaultReginfo,
    virt_pc := 0, phys_pc := pc, pc_off := 0, rv64 := false, linkage := 0 }

/-- Heap evolution under a sequence of finalizations, each given by the
phys_pc and emitted size of the block finalized. -/
def finalize_heap_trace (h : rvjit_heap_t) : List (Nat × Nat) → rvjit_heap_t
  | [] => h
  | pb :: rest =>
    finalize_heap_trace (rvjit_block_finalize (mkFinalizeBlock h pb.1 pb.2)).2.heap rest

/-- The guest physical PCs whose finalization succeeded along a trace. -/
def trace_finalized_pcs (h : rvjit_heap_t) : List (Nat × Nat) → List Nat
  | [] => []
  | pb :: rest =>
    let res := rvjit_block_finalize (mkFinalizeBlock h pb.1 pb.2)
    (if res.1.isSome then [pb.1] else []) ++ trace_finalized_pcs res.2.heap rest

/-! ### Concrete states used to instantiate the theorems -/

/-- A fresh heap of 65536 bytes with empty maps. -/
def sampleHeap : rvjit_heap_t :=
  { curr := 0, size := 65536, blocks := fun _ => none,
    block_links := fun _ => [], dirty_pages := fun _ => false,
    dirty_mask := 0xFFFF }

/-- A tiny heap of 64 bytes, too small for most blocks. -/
def smallHeap : rvjit_heap_t :=
  { curr := 0, size := 64, blocks := fun _ => none,
    block_links := fun _ => [], dirty_pages := fun _ => false,
    dirty_mask := 0xFFFF }

/-- An empty block over the sample heap: size 0, space 0. -/
def blkEmpty : rvjit_block_t := mkFinalizeBlock sampleHeap 0 0

/-- A block with free-register bits 1 and 2 set. -/
def blkMask6 : rvjit_block_t :=
  { mkFinalizeBlock sampleHeap 0x1000 16 with hreg_mask := 6 }

/-- A block with 4 bytes already emitted. -/
def blkCode4 : rvjit_block_t :=
  { mkFinalizeBlock sampleHeap 0x2000 4 with space := 4 }

/-- A block of 16 bytes to be finalized into the sample heap. -/
def blkFin : rvjit_block_t := mkFinalizeBlock sampleHeap 0x1000 16

/-- A block of 100 bytes that does not fit into the small heap. -/
def blkFull : rvjit_block_t := mkFinalizeBlock smallHeap 0x1000 100

/-- A 2000-byte instruction chunk. -/
def bigChunk : List Nat := List.replicate 2000 0

/-- A 1-byte instruction chunk. -/
def tinyChunk : List Nat := [0x90]

/-! ### Helper lemmas on 64-bit bit masks -/

theorem REG_ILL_eq : REG_ILL = 255 := rfl

theorem RVJIT_REGISTERS_eq : RVJIT_REGISTERS = 32 := rfl

theorem rvjit_hreg_mask_eq_pow {i : Nat} (h : i < 64) :
    rvjit_hreg_mask i = 2 ^ i := by
  unfold rvjit_hreg_mask
  rw [Nat.one_shiftLeft]
  exact Nat.mod_eq_of_lt (Nat.pow_lt_pow_right (by norm_num) h)

theorem and_two_pow_eq_zero_of (m i : Nat) (h : m.testBit i = false) :
    m &&& 2 ^ i = 0 := by
  apply Nat.eq_of_testBit_eq
  intro j
  rcases eq_or_ne i j with rfl | hne
  · simp [h]
  · simp [Nat.testBit_two_pow_of_ne hne]

theorem and_two_pow_ne_zero_iff (m i : Nat) :
    m &&& 2 ^ i ≠ 0 ↔ m.testBit i = true := by
  constructor
  · intro h
    cases hb : m.testBit i
    · exact absurd (and_two_pow_eq_zero_of m i hb) h
    · rfl
  · intro h hz
    have hbit : (m &&& 2 ^ i).testBit i = false := by simp [hz]
    simp [Nat.testBit_and, h, Nat.testBit_two_pow_self] at hbit

theorem clearBit_testBit (m r j : Nat) (hm : m < 2 ^ 64) (hr : r < 64) :
    (m &&& ((2 ^ 64 - 1) ^^^ rvjit_hreg_mask r)).testBit j =
      (decide (j ≠ r) && m.testBit j) := by
  rw [rvjit_hreg_mask_eq_pow hr, Nat.testBit_and, Nat.testBit_xor,
    Nat.testBit_two_pow_sub_one]
  by_cases hj : j < 64
  · rcases eq_or_ne j r with rfl | hne
    · simp [Nat.testBit_two_pow_self, hj]
    · simp [Nat.testBit_two_pow_of_ne (Ne.symm hne), hne, hj]
  · have hmj : m.testBit j = false :=
      Nat.testBit_lt_two_pow
        (lt_of_lt_of_le hm (Nat.pow_le_pow_right (by norm_num) (Nat.le_of_not_lt hj)))
    simp [hmj]

theorem clearBit_or_restore (m r : Nat) (hm : m < 2 ^ 64) (hr : r < 64)
    (hs : m.testBit r = true) :
    (m &&& ((2 ^ 64 - 1) ^^^ rvjit_hreg_mask r)) ||| rvjit_hreg_mask r = m := by
  apply Nat.eq_of_testBit_eq
  intro j
  rw [Nat.testBit_or, clearBit_testBit m r j hm hr, rvjit_hreg_mask_eq_pow hr]
  rcases eq_or_ne j r with rfl | hne
  · simp [Nat.testBit_two_pow_self, hs]
  · simp [Nat.testBit_two_pow_of_ne (Ne.symm hne), hne]

/-- Characterization of the claim loop: scanning fuel bits upward from
position i either finds no set bit among positions i..i+fuel-1 and
leaves the block untouched returning REG_ILL, or returns the lowest set
bit r in that window with exactly that bit cleared from the mask. -/
theorem tryClaimAux_spec (fuel : Nat) : ∀ (i : Nat) (block : rvjit_block_t),
    i + fuel ≤ 64 →
    (tryClaimAux block i fuel = (REG_ILL, block) ∧
      ∀ j, i ≤ j → j < i + fuel → block.hreg_mask.testBit j = false) ∨
    (∃ r, i ≤ r ∧ r < i + fuel ∧ block.hreg_mask.testBit r = true ∧
      tryClaimAux block i fuel =
        (r, { block with
              hreg_mask :=
                block.hreg_mask &&& ((2 ^ 64 - 1) ^^^ rvjit_hreg_mask r) })) := by
  induction fuel with
  | zero =>
    intro i block _
    left
    exact ⟨rfl, fun j h1 h2 => absurd h2 (by omega)⟩
  | succ fuel ih =>
    intro i block hle
    have hi64 : i < 64 := by omega
    simp only [tryClaimAux]
    by_cases hc : block.hreg_mask &&& rvjit_hreg_mask i ≠ 0
    · right
      refine ⟨i, le_refl i, by omega, ?_, ?_⟩
      · rw [rvjit_hreg_mask_eq_pow hi64] at hc
        exact (and_two_pow_ne_zero_iff block.hreg_mask i).mp hc
      · rw [if_pos hc]
    · have hz : block.hreg_mask &&& rvjit_hreg_mask i = 0 := not_not.mp hc
      have hbi : block.hreg_mask.testBit i = false := by
        rw [rvjit_hreg_mask_eq_pow hi64] at hz
        cases hb : block.hreg_mask.testBit i
        · rfl
        · exact absurd hz ((and_two_pow_ne_zero_iff block.hreg_mask i).mpr hb)
      rw [if_neg hc]
      rcases ih (i + 1) block (by omega) with ⟨heq, hnone⟩ | ⟨r, hr1, hr2, hrb, heq⟩
      · left
        refine ⟨heq, ?_⟩
        intro j h1 h2
        rcases eq_or_ne j i with rfl | hne
        · exact hbi
        · exact hnone j (by omega) (by omega)
      · right
        exact ⟨r, by omega, by omega, hrb, heq⟩

/-- Along any sequence of finalizations, a key absent from the block map
and distinct from every successfully finalized PC stays absent. -/
theorem finalize_trace_none (bs : List (Nat × Nat)) :
    ∀ (h : rvjit_heap_t) (p : Nat),
    h.blocks p = none → p ∉ trace_finalized_pcs h bs →
    (finalize_heap_trace h bs).blocks p = none := by
  induction bs with
  | nil =>
    intro h p h0 _
    exact h0
  | cons pb rest ih =>
    intro h p h0 hnot
    by_cases hcap : h.size < alignPage h.curr + pb.2
    · simp only [finalize_heap_trace, trace_finalized_pcs, rvjit_block_finalize,
        mkFinalizeBlock, hcap, if_true, reduceIte] at hnot ⊢
      simp only [Option.isSome_none, if_false, Bool.false_eq_true,
        List.nil_append, reduceIte] at hnot
      exact ih h p h0 hnot
    · simp only [finalize_heap_trace, trace_finalized_pcs, rvjit_block_finalize,
        mkFinalizeBlock, hcap, reduceIte] at hnot ⊢
      simp only [Option.isSome_some, if_true, List.cons_append, List.nil_append,
        List.mem_cons, not_or, reduceIte] at hnot
      obtain ⟨hne, hnot2⟩ := hnot
      apply ih _ p _ hnot2
      simp [hne, h0]

/-- C10: the value returned by rvjit_try_claim_hreg is either REG_ILL
or a valid index into the 32-entry regs array. -/
theorem rvjit_try_claim_hreg_result_range (block : rvjit_block_t) :
    (rvjit_try_claim_hreg block).1 = REG_ILL ∨
    (rvjit_try_claim_hreg block).1 < RVJIT_REGISTERS := by
  rcases tryClaimAux_spec RVJIT_REGISTERS 0 block (by decide)
    with ⟨heq, _⟩ | ⟨r, _, hr2, _, heq⟩
  · left
    simp only [rvjit_try_claim_hreg, heq]
  · right
    simp only [rvjit_try_claim_hreg, heq]
    omega

/-- C8: when rvjit_try_claim_hreg returns a register r distinct from
REG_ILL, bit r was set in hreg_mask before the call, is clear after it,
all other bits of hreg_mask are unchanged, and a following
rvjit_free_hreg on r restores hreg_mask exactly to its prior value. -/
theorem rvjit_try_claim_free_roundtrip (block : rvjit_block_t)
    (hm : block.hreg_mask < 2 ^ 64)
    (hne : (rvjit_try_claim_hreg block).1 ≠ REG_ILL) :
    block.hreg_mask.testBit (rvjit_try_claim_hreg block).1 = true ∧
    (rvjit_try_claim_hreg block).2.hreg_mask.testBit
      (rvjit_try_claim_hreg block).1 = false ∧
    (∀ j, j ≠ (rvjit_try_claim_hreg block).1 →
      (rvjit_try_claim_hreg block).2.hreg_mask.testBit j =
        block.hreg_mask.testBit j) ∧
    (rvjit_free_hreg (rvjit_try_claim_hreg block).2
        (rvjit_try_claim_hreg block).1).hreg_mask = block.hreg_mask := by
  rcases tryClaimAux_spec RVJIT_REGISTERS 0 block (by decide)
    with ⟨heq, _⟩ | ⟨r, _, hr2, hrb, heq⟩
  · simp only [rvjit_try_claim_hreg, heq] at hne
    exact absurd rfl hne
  · have hr64 : r < 64 := by
      rw [RVJIT_REGISTERS_eq] at hr2
      omega
    simp only [rvjit_try_claim_hreg, heq, rvjit_free_hreg]
    refine ⟨hrb, ?_, ?_, ?_⟩
    · rw [clearBit_testBit block.hreg_mask r r hm hr64]
      simp
    · intro j hj
      rw [clearBit_testBit block.hreg_mask r j hm hr64]
      simp [hj]
    · exact clearBit_or_restore block.hreg_mask r hm hr64 hrb

/-- C1: in any block state with a set bit among positions 0..31 of
hreg_mask, rvjit_claim_hreg returns the index of a set bit and clears
exactly that bit from hreg_mask; with no such bit set, it returns the
result of rvjit_reclaim_hreg on the block. -/
theorem rvjit_claim_hreg_spec (block : rvjit_block_t)
    (hm : block.hreg_mask < 2 ^ 64) :
    ((∃ i, i < RVJIT_REGISTERS ∧ block.hreg_mask.testBit i = true) →
      (rvjit_claim_hreg block).1 < RVJIT_REGISTERS ∧
      block.hreg_mask.testBit (rvjit_claim_hreg block).1 = true ∧
      ∀ j, (rvjit_claim_hreg block).2.hreg_mask.testBit j =
        (decide (j ≠ (rvjit_claim_hreg block).1) &&
          block.hreg_mask.testBit j)) ∧
    ((∀ i, i < RVJIT_REGISTERS → block.hreg_mask.testBit i = false) →
      rvjit_claim_hreg block = rvjit_reclaim_hreg block) := by
  rcases tryClaimAux_spec RVJIT_REGISTERS 0 block (by decide)
    with ⟨heq, hnone⟩ | ⟨r, hr1, hr2, hrb, heq⟩
  · constructor
    · rintro ⟨i, hi, hbit⟩
      rw [hnone i (Nat.zero_le i) (by omega)] at hbit
      exact absurd hbit (by simp)
    · intro _
      simp only [rvjit_claim_hreg, rvjit_try_claim_hreg, heq]
      simp
  · have hr64 : r < 64 := by
      rw [RVJIT_REGISTERS_eq] at hr2
      omega
    have hrne : r ≠ REG_ILL := by
      rw [REG_ILL_eq]
      rw [RVJIT_REGISTERS_eq] at hr2
      omega
    have hclaim : rvjit_claim_hreg block =
        (r, { block with hreg_mask :=
          block.hreg_mask &&& ((2 ^ 64 - 1) ^^^ rvjit_hreg_mask r) }) := by
      simp only [rvjit_claim_hreg, rvjit_try_claim_hreg, heq]
      simp [hrne]
    constructor
    · intro _
      rw [hclaim]
      refine ⟨by omega, hrb, ?_⟩
      intro j
      exact clearBit_testBit block.hreg_mask r j hm hr64
    · intro hnone
      have := hnone r (by omega)
      rw [this] at hrb
      exact absurd hrb (by simp)

/-- C1 witness: with free bits 1 and 2 set, rvjit_claim_hreg returns a
set bit below 32. -/
theorem rvjit_claim_hreg_spec_witness :
    (rvjit_claim_hreg blkMask6).1 < RVJIT_REGISTERS ∧
    blkMask6.hreg_mask.testBit (rvjit_claim_hreg blkMask6).1 = true :=
  ⟨((rvjit_claim_hreg_spec blkMask6 (by decide)).1 ⟨1, by decide, by decide⟩).1,
   ((rvjit_claim_hreg_spec blkMask6 (by decide)).1 ⟨1, by decide, by decide⟩).2.1⟩

/-- C8 witness: claiming from mask 6 and freeing the claimed register
restores the mask. -/
theorem rvjit_try_claim_free_roundtrip_witness :
    blkMask6.hreg_mask.testBit (rvjit_try_claim_hreg blkMask6).1 = true ∧
    (rvjit_free_hreg (rvjit_try_claim_hreg blkMask6).2
        (rvjit_try_claim_hreg blkMask6).1).hreg_mask = blkMask6.hreg_mask :=
  ⟨(rvjit_try_claim_free_roundtrip blkMask6 (by decide) (by decide)).1,
   (rvjit_try_claim_free_roundtrip blkMask6 (by decide) (by decide)).2.2.2⟩

/-- C2 counterexample: a 2000-byte chunk appended to an empty block
grows the capacity by only 1024 bytes, which is below size plus chunk
length, so the memcpy extends past the end of the allocated buffer. -/
theorem rvjit_put_code_overflow_cex :
    (rvjit_put_code blkEmpty bigChunk).space <
      blkEmpty.size + bigChunk.length ∧
    (rvjit_put_code blkEmpty bigChunk).space <
      (rvjit_put_code blkEmpty bigChunk).size := by
  have hlen : bigChunk.length = 2000 := by
    show (List.replicate 2000 0).length = 2000
    rw [List.length_replicate]
  constructor <;>
    simp [rvjit_put_code, hlen, blkEmpty, mkFinalizeBlock, sampleHeap]

/-- C2 (amended): for every block whose used size does not exceed its
capacity and every chunk of at most 1024 bytes, after the
capacity-growth branch the capacity is at least size plus chunk length,
so the append stays within the allocated working buffer. -/
theorem rvjit_put_code_space_ok (block : rvjit_block_t) (inst : List Nat)
    (hinv : block.size ≤ block.space) (hsz : inst.length ≤ 1024) :
    block.size + inst.length ≤ (rvjit_put_code block inst).space ∧
    (rvjit_put_code block inst).size = block.size + inst.length := by
  by_cases hc : block.space < block.size + inst.length <;>
    simp [rvjit_put_code, hc] <;> omega

/-- C2 amended witness at a concrete block and chunk. -/
theorem rvjit_put_code_space_ok_witness :
    blkEmpty.size + tinyChunk.length ≤ (rvjit_put_code blkEmpty tinyChunk).space ∧
    (rvjit_put_code blkEmpty tinyChunk).size = blkEmpty.size + tinyChunk.length :=
  rvjit_put_code_space_ok blkEmpty tinyChunk (by decide) (by decide)

/-- C9: rvjit_put_code changes only the code, size and space fields:
heap, links, register records, masks, PCs, bitness and linkage are
unchanged, and the first old-size bytes of the buffer keep their
values. -/
theorem rvjit_put_code_frame (block : rvjit_block_t) (inst : List Nat) :
    (rvjit_put_code block inst).heap = block.heap ∧
    (rvjit_put_code block inst).links = block.links ∧
    (rvjit_put_code block inst).regs = block.regs ∧
    (rvjit_put_code block inst).hreg_mask = block.hreg_mask ∧
    (rvjit_put_code block inst).abireclaim_mask = block.abireclaim_mask ∧
    (rvjit_put_code block inst).virt_pc = block.virt_pc ∧
    (rvjit_put_code block inst).phys_pc = block.phys_pc ∧
    (rvjit_put_code block inst).pc_off = block.pc_off ∧
    (rvjit_put_code block inst).rv64 = block.rv64 ∧
    (rvjit_put_code block inst).linkage = block.linkage ∧
    ∀ a, a < block.size → (rvjit_put_code block inst).code a = block.code a := by
  by_cases hc : block.space < block.size + inst.length <;>
    simp [rvjit_put_code, hc, memcpy_bytes, safe_realloc] <;>
    intro a ha h1 h2 <;>
    exact absurd h1 (by omega)

/-- C9 witness: appending to a block with 4 emitted bytes keeps byte 2
and the guest physical PC. -/
theorem rvjit_put_code_frame_witness :
    (rvjit_put_code blkCode4 tinyChunk).code 2 = blkCode4.code 2 ∧
    (rvjit_put_code blkCode4 tinyChunk).phys_pc = blkCode4.phys_pc :=
  ⟨(rvjit_put_code_frame blkCode4 tinyChunk).2.2.2.2.2.2.2.2.2.2 2 (by decide),
   (rvjit_put_code_frame blkCode4 tinyChunk).2.2.2.2.2.2.1⟩

/-- C7 counterexample: on a host without RVJIT_NATIVE_64BIT (i386 or
ARM32), requesting an RV64 guest leaves the rv64 flag false. -/
theorem rvjit_set_rv64_cex :
    (rvjit_set_rv64 false blkEmpty true).rv64 ≠ true := by decide

/-- C7 (amended): after rvjit_set_rv64 the rv64 flag equals the
requested bitness on hosts with RVJIT_NATIVE_64BIT and is forced to
false on hosts without it. -/
theorem rvjit_set_rv64_spec (block : rvjit_block_t) (b : Bool) :
    (rvjit_set_rv64 true block b).rv64 = b ∧
    (rvjit_set_rv64 false block b).rv64 = false := by
  constructor <;> simp [rvjit_set_rv64]

/-- C3: a successful finalize at phys_pc p makes a subsequent lookup of
p return the function pointer finalize returned, and after a flush the
lookup of any PC with no successfully finalized block since the flush
returns NULL. -/
theorem rvjit_block_finalize_lookup :
    (∀ (block : rvjit_block_t) (v : Nat),
      (rvjit_block_finalize block).1 = some v →
      rvjit_block_lookup (rvjit_block_finalize block).2 block.phys_pc = some v) ∧
    (∀ (block : rvjit_block_t) (bs : List (Nat × Nat)) (p : Nat),
      p ∉ trace_finalized_pcs (rvjit_flush_cache block).heap bs →
      rvjit_block_lookup
        (mkFinalizeBlock
          (finalize_heap_trace (rvjit_flush_cache block).heap bs) 0 0)
        p = none) := by
  constructor
  · intro block v hv
    by_cases hcap : block.heap.size < alignPage block.heap.curr + block.size
    · simp [rvjit_block_finalize, hcap] at hv
    · simp only [rvjit_block_finalize, hcap, reduceIte, if_false] at hv ⊢
      simp only [Option.some.injEq] at hv
      simp [rvjit_block_lookup, hv]
  · intro block bs p hnot
    have h0 : (rvjit_flush_cache block).heap.blocks p = none := rfl
    have hmain := finalize_trace_none bs (rvjit_flush_cache block).heap p h0 hnot
    simpa [rvjit_block_lookup, mkFinalizeBlock] using hmain

/-- C3 witness: finalizing a 16-byte block at PC 0x1000 into the fresh
sample heap and looking it up; a never-finalized PC stays NULL. -/
theorem rvjit_block_finalize_lookup_witness :
    rvjit_block_lookup (rvjit_block_finalize blkFin).2 blkFin.phys_pc = some 0 ∧
    rvjit_block_lookup
      (mkFinalizeBlock
        (finalize_heap_trace (rvjit_flush_cache blkFin).heap [(4096, 8)]) 0 0)
      9999 = none :=
  ⟨rvjit_block_finalize_lookup.1 blkFin 0 (by decide),
   rvjit_block_finalize_lookup.2 blkFin [(4096, 8)] 9999 (by decide)⟩

/-- C4: rvjit_block_finalize returns NULL exactly when the heap lacks
remaining capacity for the finalized block, and on the NULL outcome the
state, in particular the lookup cache, is unchanged. -/
theorem rvjit_block_finalize_null_iff (block : rvjit_block_t) :
    ((rvjit_block_finalize block).1 = none ↔
      block.heap.size < alignPage block.heap.curr + block.size) ∧
    ((rvjit_block_finalize block).1 = none →
      (rvjit_block_finalize block).2 = block) := by
  by_cases hcap : block.heap.size < alignPage block.heap.curr + block.size <;>
    simp [rvjit_block_finalize, hcap]

/-- C4 witness: a 100-byte block does not fit the 64-byte heap, so
finalize returns NULL and changes nothing. -/
theorem rvjit_block_finalize_null_iff_witness :
    (rvjit_block_finalize blkFull).1 = none ∧
    (rvjit_block_finalize blkFull).2 = blkFull :=
  ⟨(rvjit_block_finalize_null_iff blkFull).1.mpr (by decide),
   (rvjit_block_finalize_null_iff blkFull).2
     ((rvjit_block_finalize_null_iff blkFull).1.mpr (by decide))⟩

/-- C5: rvjit_flush_cache resets the allocation offset to zero, clears
the block map, the pending-link map and the dirty-page bits, and
afterwards rvjit_block_lookup returns NULL for every guest physical
PC. -/
theorem rvjit_flush_cache_spec (block : rvjit_block_t) :
    (rvjit_flush_cache block).heap.curr = 0 ∧
    (∀ p, (rvjit_flush_cache block).heap.blocks p = none) ∧
    (∀ p, (rvjit_flush_cache block).heap.block_links p = []) ∧
    (∀ p, (rvjit_flush_cache block).heap.dirty_pages p = false) ∧
    (∀ p, rvjit_block_lookup (rvjit_flush_cache block) p = none) :=
  ⟨rfl, fun _ => rfl, fun _ => rfl, fun _ => rfl, fun _ => rfl⟩

/-- C6: rvjit_mark_dirty_mem sets the dirty bit of every page that
overlaps the written range and leaves the bits of all other pages
unchanged. -/
theorem rvjit_mark_dirty_mem_spec (block : rvjit_block_t) (addr sz p : Nat) :
    (pageOverlaps p addr sz →
      (rvjit_mark_dirty_mem block addr sz).heap.dirty_pages p = true) ∧
    (¬ pageOverlaps p addr sz →
      (rvjit_mark_dirty_mem block addr sz).heap.dirty_pages p =
        block.heap.dirty_pages p) := by
  constructor <;> intro h <;> simp [rvjit_mark_dirty_mem, h]

/-- C6 witness: a 100-byte write at address 4096 dirties page 1 and
leaves page 0 untouched. -/
theorem rvjit_mark_dirty_mem_spec_witness :
    (rvjit_mark_dirty_mem blkEmpty 4096 100).heap.dirty_pages 1 = true ∧
    (rvjit_mark_dirty_mem blkEmpty 4096 100).heap.dirty_pages 0 =
      blkEmpty.heap.dirty_pages 0 :=
  ⟨(rvjit_mark_dirty_mem_spec blkEmpty 4096 100 1).1 (by decide),
   (rvjit_mark_dirty_mem_spec blkEmpty 4096 100 0).2 (by decide)⟩
